import Mathlib

/-!
Verification of the portfolio-rebalancing strategies of the backtrader
repository (`backtrader/strategies/eigen_portfolio.py`,
`backtrader/strategies/porfolio_base.py`,
`backtrader/strategies/stat_arb_portfolio.py`).

The Python code is shallowly embedded: prices, weights and equity become
rationals; the per-asset data feed becomes a `DataFeed` record; the strategy
state mutated by `rebalance_portfolio` and `adjust_positions` becomes an
explicit `StratState` record threaded through the functions; each submitted
broker order becomes a `TradeInstr` value appended to the state's order log.
-/

/-- One backtrader data feed: the asset name (`data._name`) and the visible
window of close prices, oldest first.  `data.close[0]`, the current close,
is the last entry of the window. -/
structure DataFeed where
  name : String
  closes : List ℚ
deriving Repr, DecidableEq

/-- The current close price `data.close[0]`: the most recent entry of the
visible window. -/
def DataFeed.price (d : DataFeed) : ℚ := d.closes.getLastD 0

/-- `lines.get(size=m)`: the `m` most recent closes, oldest first. -/
def getWindow (m : Nat) (l : List ℚ) : List ℚ := l.drop (l.length - m)

/-- A trade instruction submitted to the broker: `self.close(data=...)`,
`self.buy(data=..., size=...)` or `self.sell(data=..., size=...)`. -/
inductive TradeInstr where
  | close (asset : String)
  | buy (asset : String) (size : Nat)
  | sell (asset : String) (size : Nat)
deriving Repr, DecidableEq

/-- Whether an instruction is a position flattening (`self.close`). -/
def TradeInstr.isClose : TradeInstr → Bool
  | .close _ => true
  | .buy _ _ => false
  | .sell _ _ => false

/-- The strategy state touched by rebalancing: the `self.weights` mapping
from asset name to weight, and the chronological log of submitted orders. -/
structure StratState where
  weights : String → ℚ
  orders : List TradeInstr

/-- Python `int(...)` applied to a rational quotient: truncation toward
zero. -/
def truncToZero (q : ℚ) : ℤ := if q < 0 then ⌈q⌉ else ⌊q⌋

/-- The body of the second loop of `adjust_positions` for one data feed:
skip weights inside the `0.01` dead zone, otherwise size the position as
`int(portfolio_value * weight / price)` and submit a buy for a positive
size or a sell of the absolute value for a negative size. -/
def entryOrder (equity : ℚ) (w : ℚ) (d : DataFeed) : Option TradeInstr :=
  if 1 / 100 < |w| then
    let size := truncToZero (equity * w / d.price)
    if 0 < size then some (.buy d.name size.toNat)
    else if size < 0 then some (.sell d.name size.natAbs)
    else none
  else none

/-- First loop of `adjust_positions`: `self.close(data=data)` for every
data feed. -/
def closeLoop (datas : List DataFeed) (s : StratState) : StratState :=
  datas.foldl (fun st d => { st with orders := st.orders ++ [TradeInstr.close d.name] }) s

/-- Second loop of `adjust_positions`: look up the asset's weight and
submit the entry order it calls for, if any. -/
def entryLoop (datas : List DataFeed) (equity : ℚ) (s : StratState) : StratState :=
  datas.foldl
    (fun st d =>
      match entryOrder equity (st.weights d.name) d with
      | some o => { st with orders := st.orders ++ [o] }
      | none => st) s

/-- `adjust_positions` (identical in `EigenPortfolioStrategy` and
`PortfolioBase`): flatten every feed, then re-enter per the current
weights.  `equity` is `self.broker.getvalue()`. -/
def adjust_positions (datas : List DataFeed) (equity : ℚ) (s : StratState) : StratState :=
  entryLoop datas equity (closeLoop datas s)

/-- The close instructions emitted by the first loop, in order. -/
def closeInstrs (datas : List DataFeed) : List TradeInstr :=
  datas.map fun d => TradeInstr.close d.name

/-- The entry instructions emitted by the second loop, in order. -/
def entryInstrs (datas : List DataFeed) (equity : ℚ) (w : String → ℚ) : List TradeInstr :=
  datas.filterMap fun d => entryOrder equity (w d.name) d

/-- `price_df.pct_change().dropna()` applied to one price column: the row
with the undefined leading return is dropped and row `t` (0-based, for the
price pair `(t, t+1)`) is `price[t+1] / price[t] - 1`. -/
def pctChangeDropna (prices : List ℚ) : List ℚ :=
  (prices.zip prices.tail).map fun pq => pq.2 / pq.1 - 1

/-- The return matrix handed to the decomposition, stored column-major:
one return series per asset, each built from that asset's last
`lookback+1` closes. -/
def returnsCols (lookback : Nat) (datas : List DataFeed) : List (List ℚ) :=
  datas.map fun d => pctChangeDropna (getWindow (lookback + 1) d.closes)

/-- Whether a list is constant (zero sample variance). -/
def constantList (l : List ℚ) : Bool := l.all fun x => x = l.headD 0

/-- Modelled from the spec: the eigen-decomposition engine (`sklearn.PCA`
at the call site) is an external library whose code is not part of this
repository.  Per the spec it fails with a `ComputationError` on degenerate
input — a rank-deficient covariance, in particular the zero-variance case
in which every asset's return series is constant — and otherwise returns
`k` eigenvectors over the asset dimension paired with `k`
explained-variance ratios.  Only the failure condition is exercised by the
claims; the success value is a fixed placeholder (standard basis rows,
zero ratios) standing in for the library's decomposition. -/
def specPCA (cols : List (List ℚ)) (k : Nat) :
    Except String (List (List ℚ) × List ℚ) :=
  if cols.all constantList then
    .error "ComputationError: rank-deficient covariance"
  else
    .ok ((List.range k).map fun i =>
          (List.range cols.length).map fun j => if i = j then (1 : ℚ) else 0,
        List.replicate k 0)

/-- Elementwise sum of a nonempty family of vectors (empty gives `[]`). -/
def sumVecs (vs : List (List ℚ)) : List ℚ :=
  match vs with
  | [] => []
  | v :: rest => rest.foldl (fun a b => List.zipWith (· + ·) a b) v

/-- `np.mean(vs, axis=0)`: elementwise arithmetic mean. -/
def meanVecs (vs : List (List ℚ)) : List ℚ :=
  (sumVecs vs).map fun x => x / (vs.length : ℚ)

/-- `np.average(vs, axis=0, weights=ws)`: elementwise weighted average,
dividing by the sum of the weights. -/
def weightedAvgVecs (vs : List (List ℚ)) (ws : List ℚ) : List ℚ :=
  (sumVecs (List.zipWith (fun a v => v.map fun x => a * x) ws vs)).map
    fun x => x / ws.sum

/-- The scheme dispatch of `rebalance_portfolio`: `equal` averages the
first `top_eigen` eigenvectors, `variance` averages them weighted by the
explained-variance ratios, `first_only` takes the first eigenvector, and
any other string falls into the default branch, which also takes the
first eigenvector. -/
def combineWeights (scheme : String) (top_eigen : Nat)
    (eigenvectors : List (List ℚ)) (eigenvalues : List ℚ) : List ℚ :=
  if scheme = "equal" then
    meanVecs (eigenvectors.take top_eigen)
  else if scheme = "variance" then
    weightedAvgVecs (eigenvectors.take top_eigen) (eigenvalues.take top_eigen)
  else if scheme = "first_only" then
    eigenvectors.headD []
  else
    eigenvectors.headD []

/-- `np.abs(w) / np.sum(np.abs(w))`: the shared normalization. -/
def normalizeAbs (w : List ℚ) : List ℚ :=
  w.map fun x => |x| / (w.map fun y => |y|).sum

/-- The full weight synthesis of one rebalance: combine per the scheme,
then normalize by the absolute sum. -/
def synthWeights (scheme : String) (top_eigen : Nat)
    (eigenvectors : List (List ℚ)) (eigenvalues : List ℚ) : List ℚ :=
  normalizeAbs (combineWeights scheme top_eigen eigenvectors eigenvalues)

/-- `for i, asset in enumerate(self.assets): self.weights[asset] = pw[i]`. -/
def updateWeights (assets : List String) (pw : List ℚ) (w : String → ℚ) : String → ℚ :=
  (assets.zip pw).foldl (fun acc p => Function.update acc p.1 p.2) w

/-- `rebalance_portfolio`, parameterized by the decomposition engine: build
the per-asset return series from the last `lookback+1` closes, run the
engine on them with `n_components = min(top_eigen, len(assets))`; on an
engine failure the `except` branch only logs, so the state is returned
unchanged; on success, synthesize and store the new weights and run
`adjust_positions`. -/
def rebalance_portfolio
    (engine : List (List ℚ) → Nat → Except String (List (List ℚ) × List ℚ))
    (scheme : String) (top_eigen lookback : Nat) (equity : ℚ)
    (datas : List DataFeed) (s : StratState) : StratState :=
  let cols := returnsCols lookback datas
  match engine cols (min top_eigen datas.length) with
  | .error _ => s
  | .ok (evs, lam) =>
      let pw := synthWeights scheme top_eigen evs lam
      let w2 := updateWeights (datas.map (·.name)) pw s.weights
      adjust_positions datas equity { s with weights := w2 }

/-- The rebalance trigger of `next` (identical in `EigenPortfolioStrategy`
and `FactorStatArbPortfolio`): with `tester = len(self) - lookback`,
rebalance exactly when `tester > 0 and tester % rebalance_period == 1`.
`n` is the 1-based count of bars seen, `len(self)`. -/
def rebalanceFires (lookback rebalance_period n : Nat) : Bool :=
  let tester : ℤ := (n : ℤ) - (lookback : ℤ)
  decide (0 < tester) && decide (tester % (rebalance_period : ℤ) = 1)

/-! ### Helper lemmas -/

theorem getWindow_eq_self (m : Nat) (l : List ℚ) (h : l.length = m) : getWindow m l = l := by
  simp [getWindow, h]

theorem sum_map_div (l : List ℚ) (s : ℚ) : (l.map fun x => x / s).sum = l.sum / s := by
  induction l with
  | nil => simp
  | cons a t ih => simp [ih, add_div]

theorem normalizeAbs_sum (w : List ℚ) (h : (w.map fun y => |y|).sum ≠ 0) :
    (normalizeAbs w).sum = 1 := by
  have hmap : (w.map fun x => |x| / (w.map fun y => |y|).sum)
      = ((w.map fun y => |y|).map fun x => x / (w.map fun y => |y|).sum) := by
    rw [List.map_map]; rfl
  rw [normalizeAbs, hmap, sum_map_div, div_self h]

theorem abs_sum_nonneg (w : List ℚ) : 0 ≤ (w.map fun y => |y|).sum := by
  refine List.sum_nonneg ?_
  intro x hx
  obtain ⟨y, _, rfl⟩ := List.mem_map.mp hx
  exact abs_nonneg y

/-! ### Claim theorems -/

/-- C3: a rebalance fires on bar `n` (1-based) iff `n > lookback` and
`(n - lookback) mod rebalance_period == 1`; with `lookback = 252` and
`rebalance_period = 21` the first rebalance is at bar 253, the next at
274, then every 21 bars, and none fires at any bar `≤ 252`. -/
theorem rebalance_schedule :
    (∀ lookback period n : Nat,
        rebalanceFires lookback period n = true ↔
          lookback < n ∧ (n - lookback) % period = 1) ∧
    rebalanceFires 252 21 253 = true ∧
    rebalanceFires 252 21 274 = true ∧
    (∀ j : Nat, rebalanceFires 252 21 (253 + 21 * j) = true) ∧
    (∀ n : Nat, n ≤ 252 → rebalanceFires 252 21 n = false) := by
  refine ⟨?_, by decide, by decide, ?_, ?_⟩
  · intro lookback period n
    simp only [rebalanceFires, Bool.and_eq_true, decide_eq_true_eq]
    constructor
    · rintro ⟨h1, h2⟩
      have hn : lookback < n := by omega
      have hcast : ((n - lookback : ℕ) : ℤ) = (n : ℤ) - (lookback : ℤ) := by omega
      have h3 : (((n - lookback) % period : ℕ) : ℤ) = 1 := by
        rw [Int.natCast_mod, hcast, h2]
      exact ⟨hn, by exact_mod_cast h3⟩
    · rintro ⟨h1, h2⟩
      have hcast : ((n - lookback : ℕ) : ℤ) = (n : ℤ) - (lookback : ℤ) := by omega
      refine ⟨by omega, ?_⟩
      rw [← hcast, ← Int.natCast_mod, h2]
      rfl
  · intro j
    simp only [rebalanceFires, Bool.and_eq_true, decide_eq_true_eq]
    omega
  · intro n hn
    simp only [rebalanceFires, Bool.and_eq_false_iff, decide_eq_false_iff_not]
    omega

/-- Witness for C3 at concrete bars. -/
theorem rebalance_schedule_witness :
    rebalanceFires 252 21 (253 + 21 * 2) = true ∧ rebalanceFires 252 21 100 = false :=
  ⟨rebalance_schedule.2.2.2.1 2, rebalance_schedule.2.2.2.2 100 (by decide)⟩

/-- C9: with `rebalance_period = 1` the trigger `tester % 1 == 1` is never
satisfied, so no rebalance ever fires at any bar. -/
theorem period_one_never_fires (lookback n : Nat) :
    rebalanceFires lookback 1 n = false := by
  simp only [rebalanceFires, Bool.and_eq_false_iff, decide_eq_false_iff_not]
  omega

/-- C5: any `weighting_scheme` outside `{equal, variance, first_only}`
synthesizes exactly the weights of `first_only` on the same eigenvectors
and eigenvalues: both take the first eigenvector, then the shared
normalization. -/
theorem unknown_scheme_eq_first_only (scheme : String) (top_eigen : Nat)
    (evs : List (List ℚ)) (lam : List ℚ)
    (h1 : scheme ≠ "equal") (h2 : scheme ≠ "variance") (h3 : scheme ≠ "first_only") :
    synthWeights scheme top_eigen evs lam = synthWeights "first_only" top_eigen evs lam := by
  simp [synthWeights, combineWeights, h1, h2, h3]

/-- Witness for C5 at a concrete unknown scheme. -/
theorem unknown_scheme_eq_first_only_witness :
    synthWeights "bogus" 3 [[3, -1], [1, 1]] [1 / 2, 1 / 4]
      = synthWeights "first_only" 3 [[3, -1], [1, 1]] [1 / 2, 1 / 4] :=
  unknown_scheme_eq_first_only "bogus" 3 [[3, -1], [1, 1]] [1 / 2, 1 / 4]
    (by decide) (by decide) (by decide)

/-- C2: whenever the normalizing division is well defined (the absolute
sum of the combined vector is nonzero, i.e. the synthesis completes), the
stored weight vector is elementwise nonnegative and sums to exactly 1 —
for every weighting scheme, the fallback included. -/
theorem synth_weights_nonneg_sum_one (scheme : String) (top_eigen : Nat)
    (evs : List (List ℚ)) (lam : List ℚ)
    (h : ((combineWeights scheme top_eigen evs lam).map fun y => |y|).sum ≠ 0) :
    (∀ x ∈ synthWeights scheme top_eigen evs lam, 0 ≤ x) ∧
      (synthWeights scheme top_eigen evs lam).sum = 1 := by
  constructor
  · intro x hx
    simp only [synthWeights, normalizeAbs, List.mem_map] at hx
    obtain ⟨y, _, rfl⟩ := hx
    exact div_nonneg (abs_nonneg y) (abs_sum_nonneg _)
  · exact normalizeAbs_sum _ h

/-- Witness for C2 at a concrete synthesis. -/
theorem synth_weights_nonneg_sum_one_witness :
    (∀ x ∈ synthWeights "variance" 1 [[3, -1]] [1], 0 ≤ x) ∧
      (synthWeights "variance" 1 [[3, -1]] [1]).sum = 1 :=
  synth_weights_nonneg_sum_one "variance" 1 [[3, -1]] [1] (by
    simp [combineWeights, weightedAvgVecs, sumVecs]
    norm_num)

theorem pctChangeDropna_length (l : List ℚ) : (pctChangeDropna l).length = l.length - 1 := by
  simp [pctChangeDropna]

theorem pctChangeDropna_getD (l : List ℚ) (i : Nat) (h : i + 1 < l.length) :
    (pctChangeDropna l).getD i 0 = l.getD (i + 1) 0 / l.getD i 0 - 1 := by
  have hlen : i < (pctChangeDropna l).length := by rw [pctChangeDropna_length]; omega
  rw [List.getD_eq_getElem _ _ hlen, List.getD_eq_getElem _ _ h,
    List.getD_eq_getElem _ _ (by omega : i < l.length)]
  simp [pctChangeDropna, List.getElem_zip, List.getElem_tail]

/-- C8: from a window of exactly `lookback+1` strictly positive closes per
asset, the return data fed to the decomposition has exactly `lookback`
rows per asset: the first differenced row is dropped and the remaining
row `t` (1-based over the prices) is `price[t] / price[t-1] - 1`
elementwise. -/
theorem returns_window_rows (lookback : Nat) (datas : List DataFeed)
    (hlen : ∀ d ∈ datas, d.closes.length = lookback + 1)
    (_hpos : ∀ d ∈ datas, ∀ p ∈ d.closes, 0 < p) :
    (∀ col ∈ returnsCols lookback datas, col.length = lookback) ∧
    (∀ d ∈ datas, ∀ t : Nat, 1 ≤ t → t ≤ lookback →
      (pctChangeDropna (getWindow (lookback + 1) d.closes)).getD (t - 1) 0
        = d.closes.getD t 0 / d.closes.getD (t - 1) 0 - 1) := by
  constructor
  · intro col hcol
    obtain ⟨d, hd, rfl⟩ := List.mem_map.mp hcol
    rw [getWindow_eq_self _ _ (hlen d hd), pctChangeDropna_length, hlen d hd]
    omega
  · intro d hd t ht1 ht2
    rw [getWindow_eq_self _ _ (hlen d hd)]
    have h : (t - 1) + 1 < d.closes.length := by rw [hlen d hd]; omega
    have hmain := pctChangeDropna_getD d.closes (t - 1) h
    rwa [show t - 1 + 1 = t from by omega] at hmain

/-- Witness for C8 on a concrete three-price window. -/
theorem returns_window_rows_witness :
    (∀ col ∈ returnsCols 2 [⟨"A", [2, 3, 6]⟩], col.length = 2) ∧
    (∀ d ∈ [(⟨"A", [2, 3, 6]⟩ : DataFeed)], ∀ t : Nat, 1 ≤ t → t ≤ 2 →
      (pctChangeDropna (getWindow 3 d.closes)).getD (t - 1) 0
        = d.closes.getD t 0 / d.closes.getD (t - 1) 0 - 1) :=
  returns_window_rows 2 [⟨"A", [2, 3, 6]⟩]
    (by rintro d hd; simp at hd; subst hd; rfl)
    (by rintro d hd; simp at hd; subst hd; intro p hp; fin_cases hp <;> norm_num)

/-- C4: above the `0.01` dead zone the submitted size is
`int(equity * weight / price)` (truncation toward zero) — a buy of that
size when positive, a sell of its absolute value when negative; at or
below the dead zone no order is submitted.  Concretely, equity 100000,
weight 0.20, price 50 submits a buy of 400 after the flatten, and weight
0.005 submits nothing. -/
theorem reconciliation_sizing :
    (∀ (equity w : ℚ) (d : DataFeed), |w| ≤ 1 / 100 → entryOrder equity w d = none) ∧
    (∀ (equity w : ℚ) (d : DataFeed), 1 / 100 < |w| →
        0 < truncToZero (equity * w / d.price) →
        entryOrder equity w d
          = some (TradeInstr.buy d.name (truncToZero (equity * w / d.price)).toNat)) ∧
    (∀ (equity w : ℚ) (d : DataFeed), 1 / 100 < |w| →
        truncToZero (equity * w / d.price) < 0 →
        entryOrder equity w d
          = some (TradeInstr.sell d.name (truncToZero (equity * w / d.price)).natAbs)) ∧
    (adjust_positions [⟨"A", [50]⟩] 100000 ⟨fun _ => 1 / 5, []⟩).orders
      = [TradeInstr.close "A", TradeInstr.buy "A" 400] ∧
    (adjust_positions [⟨"A", [50]⟩] 100000 ⟨fun _ => 1 / 200, []⟩).orders
      = [TradeInstr.close "A"] := by
  refine ⟨?_, ?_, ?_, ?_, ?_⟩
  · intro equity w d h
    simp only [entryOrder]
    rw [if_neg (not_lt.mpr h)]
  · intro equity w d hw hs
    simp only [entryOrder, if_pos hw]
    rw [if_pos hs]
  · intro equity w d hw hs
    have h1 : ¬ 0 < truncToZero (equity * w / d.price) := by omega
    simp only [entryOrder, if_pos hw]
    rw [if_neg h1, if_pos hs]
  · norm_num [adjust_positions, entryLoop, closeLoop, entryOrder, DataFeed.price, truncToZero,
      abs_of_pos]
    all_goals decide
  · norm_num [adjust_positions, entryLoop, closeLoop, entryOrder, DataFeed.price, truncToZero,
      abs_of_pos]

/-- Witness for C4 at concrete inputs on both sides of the dead zone. -/
theorem reconciliation_sizing_witness :
    entryOrder 100000 (1 / 200) ⟨"A", [50]⟩ = none ∧
    entryOrder 100000 (1 / 5) ⟨"A", [50]⟩
      = some (TradeInstr.buy "A"
          (truncToZero (100000 * (1 / 5) / DataFeed.price ⟨"A", [50]⟩)).toNat) :=
  ⟨reconciliation_sizing.1 100000 (1 / 200) ⟨"A", [50]⟩ (by norm_num [abs_of_pos]),
   reconciliation_sizing.2.1 100000 (1 / 5) ⟨"A", [50]⟩ (by norm_num [abs_of_pos])
     (by norm_num [truncToZero, DataFeed.price])⟩

/-- C10: above the dead zone but with a target value below one share's
price (`0 ≤ equity * weight / price < 1`), the truncated size is 0, both
order branches are skipped, and no order is submitted for the asset. -/
theorem subunit_target_no_order (equity w : ℚ) (d : DataFeed)
    (_hw : 1 / 100 < |w|) (h0 : 0 ≤ equity * w / d.price) (h1 : equity * w / d.price < 1) :
    entryOrder equity w d = none := by
  have ht : truncToZero (equity * w / d.price) = 0 := by
    unfold truncToZero
    rw [if_neg (not_lt.mpr h0)]
    exact Int.floor_eq_zero_iff.mpr (Set.mem_Ico.mpr ⟨h0, h1⟩)
  simp [entryOrder, ht]

/-- Witness for C10: equity 100, weight 0.2, price 50 targets 0.4 of a
share, so nothing is submitted. -/
theorem subunit_target_no_order_witness :
    entryOrder 100 (1 / 5) ⟨"A", [50]⟩ = none :=
  subunit_target_no_order 100 (1 / 5) ⟨"A", [50]⟩ (by norm_num [abs_of_pos])
    (by norm_num [DataFeed.price]) (by norm_num [DataFeed.price])

theorem closeLoop_spec (datas : List DataFeed) (s : StratState) :
    closeLoop datas s = ⟨s.weights, s.orders ++ closeInstrs datas⟩ := by
  induction datas generalizing s with
  | nil => simp [closeLoop, closeInstrs]
  | cons d ds ih =>
      rw [show closeLoop (d :: ds) s
            = closeLoop ds ⟨s.weights, s.orders ++ [TradeInstr.close d.name]⟩ from rfl, ih]
      simp [closeInstrs]

theorem entryLoop_spec (datas : List DataFeed) (equity : ℚ) (s : StratState) :
    entryLoop datas equity s = ⟨s.weights, s.orders ++ entryInstrs datas equity s.weights⟩ := by
  induction datas generalizing s with
  | nil => simp [entryLoop, entryInstrs]
  | cons d ds ih =>
      have hstep : entryLoop (d :: ds) equity s
          = entryLoop ds equity
              (match entryOrder equity (s.weights d.name) d with
               | some o => ⟨s.weights, s.orders ++ [o]⟩
               | none => s) := rfl
      rw [hstep]
      cases ho : entryOrder equity (s.weights d.name) d with
      | some o =>
          simp only [ho]
          rw [ih]
          simp [entryInstrs, List.filterMap_cons, ho]
      | none =>
          simp only [ho]
          rw [ih]
          simp [entryInstrs, List.filterMap_cons, ho]

theorem adjust_positions_spec (datas : List DataFeed) (equity : ℚ) (s : StratState) :
    adjust_positions datas equity s
      = ⟨s.weights, s.orders ++ (closeInstrs datas ++ entryInstrs datas equity s.weights)⟩ := by
  unfold adjust_positions
  rw [closeLoop_spec, entryLoop_spec]
  simp

theorem entryOrder_not_isClose (equity w : ℚ) (d : DataFeed) (o : TradeInstr)
    (h : entryOrder equity w d = some o) : o.isClose = false := by
  simp only [entryOrder] at h
  split at h
  · split at h
    · simp only [Option.some.injEq] at h
      subst h
      rfl
    · split at h
      · simp only [Option.some.injEq] at h
        subst h
        rfl
      · simp at h
  · simp at h

theorem mem_closeInstrs_isClose (datas : List DataFeed) (x : TradeInstr)
    (h : x ∈ closeInstrs datas) : x.isClose = true := by
  obtain ⟨d, _, rfl⟩ := List.mem_map.mp h
  rfl

theorem mem_entryInstrs_not_isClose (datas : List DataFeed) (equity : ℚ) (w : String → ℚ)
    (x : TradeInstr) (h : x ∈ entryInstrs datas equity w) : x.isClose = false := by
  obtain ⟨d, _, hd⟩ := List.mem_filterMap.mp h
  exact entryOrder_not_isClose _ _ _ _ hd

theorem close_entries_append_sorted (cs es : List TradeInstr)
    (hc : ∀ x ∈ cs, x.isClose = true) (he : ∀ x ∈ es, x.isClose = false)
    (i j : Nat) (hi : i < (cs ++ es).length) (hj : j < (cs ++ es).length)
    (h1 : ((cs ++ es).get ⟨i, hi⟩).isClose = true)
    (h2 : ((cs ++ es).get ⟨j, hj⟩).isClose = false) : i < j := by
  have hic : i < cs.length := by
    by_contra hge
    push_neg at hge
    have hmem : (cs ++ es).get ⟨i, hi⟩ ∈ es := by
      rw [List.get_eq_getElem, List.getElem_append_right hge]
      exact List.getElem_mem _
    rw [he _ hmem] at h1
    exact Bool.false_ne_true h1
  have hjc : cs.length ≤ j := by
    by_contra hlt
    push_neg at hlt
    have hmem : (cs ++ es).get ⟨j, hj⟩ ∈ cs := by
      rw [List.get_eq_getElem, List.getElem_append_left hlt]
      exact List.getElem_mem _
    rw [hc _ hmem] at h2
    exact Bool.noConfusion h2
  omega

/-- C6: one `adjust_positions` cycle submits a close for every asset in
the universe, unconditionally, and every close of the cycle precedes
every buy/sell entry of the cycle — closes and entries are never
interleaved. -/
theorem adjust_close_before_entries (datas : List DataFeed) (equity : ℚ) (w : String → ℚ) :
    (∀ d ∈ datas,
        TradeInstr.close d.name ∈ (adjust_positions datas equity ⟨w, []⟩).orders) ∧
    (∀ i j : Nat,
        ∀ hi : i < (adjust_positions datas equity ⟨w, []⟩).orders.length,
        ∀ hj : j < (adjust_positions datas equity ⟨w, []⟩).orders.length,
        ((adjust_positions datas equity ⟨w, []⟩).orders.get ⟨i, hi⟩).isClose = true →
        ((adjust_positions datas equity ⟨w, []⟩).orders.get ⟨j, hj⟩).isClose = false →
        i < j) := by
  have hsp : (adjust_positions datas equity ⟨w, []⟩).orders
      = closeInstrs datas ++ entryInstrs datas equity w := by
    rw [adjust_positions_spec]
    simp
  constructor
  · intro d hd
    rw [hsp]
    exact List.mem_append_left _ (List.mem_map.mpr ⟨d, hd, rfl⟩)
  · intro i j hi hj h1 h2
    have hi2 : i < (closeInstrs datas ++ entryInstrs datas equity w).length := hsp ▸ hi
    have hj2 : j < (closeInstrs datas ++ entryInstrs datas equity w).length := hsp ▸ hj
    refine close_entries_append_sorted (closeInstrs datas) (entryInstrs datas equity w)
      (fun x hx => mem_closeInstrs_isClose _ _ hx)
      (fun x hx => mem_entryInstrs_not_isClose _ _ _ _ hx) i j hi2 hj2 ?_ ?_
    · rw [← List.get_of_eq hsp ⟨i, hi⟩]
      exact h1
    · rw [← List.get_of_eq hsp ⟨j, hj⟩]
      exact h2

/-- Witness for C6: one asset, weight 0.2, gives the log
`[close A, buy A 400]`; the close is at index 0, before the entry. -/
theorem adjust_close_before_entries_witness :
    TradeInstr.close "A"
      ∈ (adjust_positions [⟨"A", [50]⟩] 100000 ⟨fun _ => 1 / 5, []⟩).orders :=
  (adjust_close_before_entries [⟨"A", [50]⟩] 100000 fun _ => 1 / 5).1
    ⟨"A", [50]⟩ (by simp)

/-- C7: `adjust_positions` never writes the weight mapping, and running
it twice with the same equity, prices and weights emits the identical
instruction batch (hence the same target size for every asset) both
times. -/
theorem adjust_idempotent_sizes (datas : List DataFeed) (equity : ℚ) (s : StratState) :
    (adjust_positions datas equity s).weights = s.weights ∧
    (adjust_positions datas equity s).orders
      = s.orders ++ (closeInstrs datas ++ entryInstrs datas equity s.weights) ∧
    (adjust_positions datas equity (adjust_positions datas equity s)).orders
      = (adjust_positions datas equity s).orders
          ++ (closeInstrs datas ++ entryInstrs datas equity s.weights) := by
  rw [adjust_positions_spec datas equity s]
  refine ⟨rfl, rfl, ?_⟩
  rw [adjust_positions_spec]

theorem pctChangeDropna_replicate (n : Nat) (c : ℚ) :
    pctChangeDropna (List.replicate (n + 1) c) = List.replicate n (c / c - 1) := by
  induction n with
  | zero => rfl
  | succ m ih =>
      have hstep : pctChangeDropna (List.replicate (m + 1 + 1) c)
          = (c / c - 1) :: pctChangeDropna (List.replicate (m + 1) c) := by
        simp [pctChangeDropna, List.replicate_succ]
      rw [hstep, ih, List.replicate_succ]

theorem constantList_replicate (n : Nat) (x : ℚ) :
    constantList (List.replicate n x) = true := by
  cases n with
  | zero => rfl
  | succ m =>
      simp [constantList, List.all_eq_true, List.mem_replicate, List.replicate_succ]

/-- C1: when every asset's window for the whole lookback period is the
same constant price, the return matrix is identically zero
(zero-variance, rank-deficient), the decomposition step fails, the
failure is caught by the `try/except` at the rebalance boundary, and the
whole cycle is a no-op: the weight mapping after the cycle equals the one
before, entry by entry (and no orders are submitted). -/
theorem degenerate_rebalance_noop (scheme : String) (top_eigen lookback : Nat)
    (equity c : ℚ) (datas : List DataFeed) (s : StratState)
    (hconst : ∀ d ∈ datas, d.closes = List.replicate (lookback + 1) c) :
    rebalance_portfolio specPCA scheme top_eigen lookback equity datas s = s ∧
    ∀ a : String,
      (rebalance_portfolio specPCA scheme top_eigen lookback equity datas s).weights a
        = s.weights a := by
  have hcols : returnsCols lookback datas
      = datas.map fun _ => List.replicate lookback (c / c - 1) := by
    unfold returnsCols
    refine List.map_congr_left ?_
    intro d hd
    rw [hconst d hd, getWindow_eq_self _ _ (by simp), pctChangeDropna_replicate]
  have hall : ((datas.map fun _ => List.replicate lookback (c / c - 1)).all constantList)
      = true := by
    rw [List.all_eq_true]
    intro col hcol
    obtain ⟨d, _, rfl⟩ := List.mem_map.mp hcol
    exact constantList_replicate _ _
  have herr : specPCA (datas.map fun _ => List.replicate lookback (c / c - 1))
      (min top_eigen datas.length) = .error "ComputationError: rank-deficient covariance" := by
    unfold specPCA
    rw [if_pos hall]
  have hmain : rebalance_portfolio specPCA scheme top_eigen lookback equity datas s = s := by
    simp only [rebalance_portfolio]
    rw [hcols, herr]
  exact ⟨hmain, fun a => by rw [hmain]⟩

/-- Witness for C1: two assets with the constant window `[5, 5, 5]` and a
lookback of 2 leave the state untouched. -/
theorem degenerate_rebalance_noop_witness :
    rebalance_portfolio specPCA "variance" 3 2 100000
        [⟨"A", [5, 5, 5]⟩, ⟨"B", [5, 5, 5]⟩] ⟨fun _ => 1 / 3, []⟩
      = ⟨fun _ => 1 / 3, []⟩ :=
  (degenerate_rebalance_noop "variance" 3 2 100000 5
    [⟨"A", [5, 5, 5]⟩, ⟨"B", [5, 5, 5]⟩] ⟨fun _ => 1 / 3, []⟩
    (by intro d hd; fin_cases hd <;> rfl)).1
